import Mathlib

/-!
# Verification of the sw-rasterizer core (src/rasterizer.rs, src/main.rs)

A shallow embedding of the software rasterizer. Rust `f32` values are
modelled as exact rationals (`ℚ`); the numeric casts `as i32`, `as u32`,
`as u8` are modelled by truncation toward zero followed by saturation to
the target range, which is the semantics of Rust's float-to-integer `as`
casts. Machine integers (`i32` coordinates, `u32` depth values, `u8`
color channels) are modelled as `ℤ`/`ℕ`: all coordinate arithmetic in
the rasterizer stays far below the `i32` overflow boundary for any real
framebuffer, so wrap-around is not modelled. Buffers (`Vec<[u8;4]>`,
`Vec<u32>`) are modelled as Lean lists; Rust's panicking index read is
modelled by `List.getD` and index assignment by `List.set` (the
in-bounds theorem for all generated indices is proved separately).
-/

namespace SwRast

/-- `Vector2<i32>` from cgmath, as used for pixel coordinates. -/
structure Vec2i where
  x : ℤ
  y : ℤ
deriving DecidableEq, Repr

/-- `Vector2<f32>`. -/
structure Vec2 where
  x : ℚ
  y : ℚ
deriving DecidableEq, Repr

/-- `Vector3<f32>`. -/
structure Vec3 where
  x : ℚ
  y : ℚ
  z : ℚ
deriving DecidableEq, Repr

/-- `Vector4<f32>`. -/
structure Vec4 where
  x : ℚ
  y : ℚ
  z : ℚ
  w : ℚ
deriving DecidableEq, Repr

/-- Truncation toward zero, the rounding mode of Rust float-to-int casts. -/
def ratTrunc (q : ℚ) : ℤ :=
  if 0 ≤ q then ⌊q⌋ else ⌈q⌉

/-- Rust `as i32` on an `f32`: truncate toward zero, saturating to the
`i32` range. -/
def i32cast (q : ℚ) : ℤ :=
  min (max (ratTrunc q) (-(2 ^ 31))) (2 ^ 31 - 1)

/-- Rust `as u32` on an `f32`: truncate toward zero, saturating to the
`u32` range (negative values become 0). -/
def u32cast (q : ℚ) : ℕ :=
  (min (max (ratTrunc q) 0) (2 ^ 32 - 1)).toNat

/-- Rust `as u8` on an `f32`: truncate toward zero, saturating to `[0, 255]`. -/
def u8cast (q : ℚ) : ℕ :=
  (min (max (ratTrunc q) 0) 255).toNat

/-- `u32::max_value()`. -/
def u32max : ℕ := 2 ^ 32 - 1

/-- One `[u8; 4]` texel of the backbuffer, in RGBA order. -/
structure RGBA where
  r : ℕ
  g : ℕ
  b : ℕ
  a : ℕ
deriving DecidableEq, Repr

/-- A 4×4 `f32` matrix (`cgmath::Matrix4`), stored as its four columns. -/
structure Mat4 where
  x : Vec4
  y : Vec4
  z : Vec4
  w : Vec4
deriving DecidableEq, Repr

/-- Matrix–vector product (columns combined by the vector's components). -/
def Mat4.mulVec (m : Mat4) (v : Vec4) : Vec4 :=
  ⟨m.x.x * v.x + m.y.x * v.y + m.z.x * v.z + m.w.x * v.w,
   m.x.y * v.x + m.y.y * v.y + m.z.y * v.z + m.w.y * v.w,
   m.x.z * v.x + m.y.z * v.y + m.z.z * v.z + m.w.z * v.w,
   m.x.w * v.x + m.y.w * v.y + m.z.w * v.z + m.w.w * v.w⟩

/-- Matrix–matrix product. -/
def Mat4.mul (m n : Mat4) : Mat4 :=
  ⟨m.mulVec n.x, m.mulVec n.y, m.mulVec n.z, m.mulVec n.w⟩

/-- `Matrix4::identity()`. -/
def Mat4.identity : Mat4 :=
  ⟨⟨1, 0, 0, 0⟩, ⟨0, 1, 0, 0⟩, ⟨0, 0, 1, 0⟩, ⟨0, 0, 0, 1⟩⟩

/-- `Matrix4::from_scale(s)`. -/
def Mat4.from_scale (s : ℚ) : Mat4 :=
  ⟨⟨s, 0, 0, 0⟩, ⟨0, s, 0, 0⟩, ⟨0, 0, s, 0⟩, ⟨0, 0, 0, 1⟩⟩

/-- The `Blend` trait: 3-way weighted combination of attribute values. -/
class Blend (α : Type) where
  blend : α → ℚ → α → ℚ → α → ℚ → α

/-- The private `Depth(f32)` wrapper from rasterizer.rs. -/
structure Depth where
  val : ℚ
deriving DecidableEq, Repr

/-- `impl Blend for Depth` (rasterizer.rs lines 81–85). -/
instance instBlendDepth : Blend Depth :=
  ⟨fun a aw b bw c cw => ⟨a.val * aw + b.val * bw + c.val * cw⟩⟩

/-- `Color(Vector3<f32>)` from main.rs. -/
structure Color where
  val : Vec3
deriving DecidableEq, Repr

/-- `impl Blend for Color` (main.rs lines 33–39). -/
instance instBlendColor : Blend Color :=
  ⟨fun a aw b bw c cw =>
    ⟨⟨a.val.x * aw + b.val.x * bw + c.val.x * cw,
      a.val.y * aw + b.val.y * bw + c.val.y * cw,
      a.val.z * aw + b.val.z * bw + c.val.z * cw⟩⟩⟩

/-- `Uv(Vector2<f32>)` from main.rs. -/
structure Uv where
  val : Vec2
deriving DecidableEq, Repr

/-- `impl Blend for Uv` (main.rs lines 41–46). -/
instance instBlendUv : Blend Uv :=
  ⟨fun a aw b bw c cw =>
    ⟨⟨a.val.x * aw + b.val.x * bw + c.val.x * cw,
      a.val.y * aw + b.val.y * bw + c.val.y * cw⟩⟩⟩

/-- The `Rasterizer` struct: dimensions, color and depth buffers, matrices. -/
structure Rasterizer where
  width : ℕ
  height : ℕ
  backbuffer : List RGBA
  depthbuffer : List ℕ
  view : Mat4
  proj : Mat4
deriving Repr

/-- `Rasterizer::new(width, height)` (rasterizer.rs lines 20–29).
The backbuffer is `vec![[0; 4]; width*height]` and the depth buffer is
`vec![0; width*height]`. -/
def Rasterizer.new (width height : ℕ) : Rasterizer :=
  { width := width
    height := height
    backbuffer := List.replicate (width * height) ⟨0, 0, 0, 0⟩
    depthbuffer := List.replicate (width * height) 0
    view := Mat4.identity
    proj := Mat4.identity }

/-- `Rasterizer::set_view`. -/
def Rasterizer.set_view (r : Rasterizer) (m : Mat4) : Rasterizer :=
  { r with view := m }

/-- `Rasterizer::set_proj`. -/
def Rasterizer.set_proj (r : Rasterizer) (m : Mat4) : Rasterizer :=
  { r with proj := m }

/-- `Rasterizer::clear()` (rasterizer.rs lines 52–63): every texel is
set to `(0,0,0,0)` and every depth cell to `u32::max_value()`. -/
def Rasterizer.clear (r : Rasterizer) : Rasterizer :=
  { r with
    backbuffer := r.backbuffer.map fun _ => ⟨0, 0, 0, 0⟩
    depthbuffer := r.depthbuffer.map fun _ => u32max }

/-- `edge_function` (rasterizer.rs lines 122–125). -/
def edge_function (a b c : Vec2i) : ℤ :=
  (c.x - a.x) * (b.y - a.y) - (c.y - a.y) * (b.x - a.x)

/-- `edge_step` (rasterizer.rs lines 127–130); computed but never used
by the scan loop. -/
def edge_step (a b : Vec2i) (step : ℤ) : ℤ :=
  -(b.y - a.y) * step

/-- `map_coord` (rasterizer.rs lines 132–139): perspective divide by
`-z` followed by the screen-to-pixel mapping with a vertical flip. The
`near` parameter and the intermediate `ndc` value are unused in the
source and dropped here. -/
def map_coord (vec : Vec4) (width height near : ℚ) : Vec2i :=
  let screen : Vec2 := ⟨vec.x / -vec.z, vec.y / -vec.z⟩
  ⟨i32cast ((screen.x + 1) / 2 * width),
   i32cast ((1 - screen.y) / 2 * height)⟩

/-- The bounding-box computation inside `Pipeline::rasterize`
(rasterizer.rs lines 153–186), translated literally: the min starts at
`i32::max_value()`; the max is seeded from the computed min; the clamps
run in source order (`> width`/`> height` first, then `< 0`). Returns
`(min, max)`. -/
def bbox (p1 p2 p3 : Vec2i) (width height : ℤ) : Vec2i × Vec2i :=
  let minx0 := min (min (min (2 ^ 31 - 1) p1.x) p2.x) p3.x
  let miny0 := min (min (min (2 ^ 31 - 1) p1.y) p2.y) p3.y
  let maxx0 := max (max (max minx0 p1.x) p2.x) p3.x
  let maxy0 := max (max (max miny0 p1.y) p2.y) p3.y
  let maxx1 := if maxx0 > width then width else maxx0
  let maxy1 := if maxy0 > height then height else maxy0
  let minx1 := if minx0 > width then width else minx0
  let miny1 := if miny0 > height then height else miny0
  let maxx2 := if maxx1 < 0 then 0 else maxx1
  let maxy2 := if maxy1 < 0 then 0 else maxy1
  let minx2 := if minx1 < 0 then 0 else minx1
  let miny2 := if miny1 < 0 then 0 else miny1
  (⟨minx2, miny2⟩, ⟨maxx2, maxy2⟩)

/-- The integers `lo, lo+1, …, hi-1` (a Rust `lo..hi` range). -/
def intRange (lo hi : ℤ) : List ℤ :=
  (List.range (hi - lo).toNat).map fun i : ℕ => lo + (i : ℤ)

/-- The pixels scanned by the nested `for x in min.x..max.x`,
`for y in min.y..max.y` loops, in loop order. -/
def boxPixels (mn mx : Vec2i) : List (ℤ × ℤ) :=
  (intRange mn.x mx.x).flatMap fun x => (intRange mn.y mx.y).map fun y => (x, y)

/-- The depth value computed at a pixel (rasterizer.rs lines 217–219):
blend the three `z` components with the normalized edge weights, take
`f32::min` with 1000, divide by 1000, scale by `u32::max_value() as f32`
and cast `as u32`. -/
def depth_val (z1 z2 z3 w1 w2 w3 : ℚ) : ℕ :=
  u32cast ((min (Blend.blend (Depth.mk z1) w1 (Depth.mk z2) w2 (Depth.mk z3) w3).val 1000
            / 1000) * 4294967295)

/-- The color written on a depth-test pass (rasterizer.rs lines 226–231):
the fragment shader applied to the pixel coordinate and the blended
attribute, each channel scaled by 255 and cast `as u8`. -/
def frag_color {O : Type} [Blend O] (frag : Vec2 → O → Vec4)
    (A B C : O) (w1 w2 w3 : ℚ) (x y : ℤ) : RGBA :=
  let color := frag ⟨(x : ℚ), (y : ℚ)⟩ (Blend.blend A w1 B w2 C w3)
  ⟨u8cast (color.x * 255), u8cast (color.y * 255),
   u8cast (color.z * 255), u8cast (color.w * 255)⟩

/-- The body of the per-pixel scan loop (rasterizer.rs lines 198–234):
skip if the triangle area is ≤ 0; compute the three edge values; if all
are ≥ 0, normalize them by the area, compute the depth value and the
linear index `x + width*y`, and write depth and shaded color when the
new depth is strictly smaller than the stored one. The state is the
pair (backbuffer, depthbuffer). -/
def stepPixel {O : Type} [Blend O] (width : ℤ) (p1 p2 p3 : Vec2i) (a b c : Vec4)
    (A B C : O) (frag : Vec2 → O → Vec4)
    (st : List RGBA × List ℕ) (x y : ℤ) : List RGBA × List ℕ :=
  let point : Vec2i := ⟨x, y⟩
  let area := edge_function p1 p2 p3
  if area ≤ 0 then st
  else
    let w1 := edge_function p1 p2 point
    let w2 := edge_function p2 p3 point
    let w3 := edge_function p3 p1 point
    if 0 ≤ w1 ∧ 0 ≤ w2 ∧ 0 ≤ w3 then
      let w1f : ℚ := (w1 : ℚ) / (area : ℚ)
      let w2f : ℚ := (w2 : ℚ) / (area : ℚ)
      let w3f : ℚ := (w3 : ℚ) / (area : ℚ)
      let depthv := depth_val a.z b.z c.z w1f w2f w3f
      let idx := (x + width * y).toNat
      if depthv < st.2.getD idx 0 then
        (st.1.set idx (frag_color frag A B C w1f w2f w3f x y),
         st.2.set idx depthv)
      else st
    else st

/-- One triangle of `Pipeline::rasterize` (rasterizer.rs lines 145–236):
map the three clip positions to pixel coordinates (`near` argument
`0.1`), compute the clamped bounding box, and scan its pixels. -/
def rasterizeTriangle {O : Type} [Blend O] (width height : ℤ) (a b c : Vec4)
    (A B C : O) (frag : Vec2 → O → Vec4)
    (st : List RGBA × List ℕ) : List RGBA × List ℕ :=
  let p1 := map_coord a (width : ℚ) (height : ℚ) (1 / 10)
  let p2 := map_coord b (width : ℚ) (height : ℚ) (1 / 10)
  let p3 := map_coord c (width : ℚ) (height : ℚ) (1 / 10)
  let bb := bbox p1 p2 p3 width height
  (boxPixels bb.1 bb.2).foldl
    (fun st p => stepPixel width p1 p2 p3 a b c A B C frag st p.1 p.2) st

/-- `triangles.chunks(3).zip(attributes.chunks(3))` followed by the
`if let (&[a,b,c], &[A,B,C])` pattern: consecutive triples are paired
up and any trailing group of fewer than three entries on either side is
silently dropped. -/
def tripleZip {α β : Type} : List α → List β → List ((α × α × α) × (β × β × β))
  | a :: b :: c :: r, d :: e :: f :: s => ((a, b, c), (d, e, f)) :: tripleZip r s
  | _, _ => []

/-- `Pipeline::rasterize` (rasterizer.rs lines 110–238): fold the
per-triangle rasterizer over the triple-chunked position and attribute
caches. -/
def rasterize {O : Type} [Blend O] (width height : ℕ)
    (triangles : List Vec4) (attributes : List O)
    (backbuffer : List RGBA) (depth : List ℕ)
    (frag : Vec2 → O → Vec4) : List RGBA × List ℕ :=
  (tripleZip triangles attributes).foldl
    (fun st t =>
      rasterizeTriangle (width : ℤ) (height : ℤ) t.1.1 t.1.2.1 t.1.2.2
        t.2.1 t.2.2.1 t.2.2.2 frag st)
    (backbuffer, depth)

/-- The `Pipeline` struct: shader functions plus the two per-frame caches. -/
structure Pipeline (I O : Type) where
  vertex_fn : I → Mat4 → O × Vec4
  frag_fn : Vec2 → O → Vec4
  frag_cache : List O
  vertex_cache : List Vec4

/-- `Pipeline::new` (rasterizer.rs lines 100–108): both caches start
empty (the capacity hint has no observable effect). -/
def Pipeline.new {I O : Type} (vertex : I → Mat4 → O × Vec4)
    (frag : Vec2 → O → Vec4) : Pipeline I O :=
  ⟨vertex, frag, [], []⟩

/-- The transform stage of `Pipeline::process` (rasterizer.rs lines
242–247): every input vertex is passed to the vertex shader with the
combined matrix, the attribute outputs and clip positions accumulating
in input order. Returns (attribute outputs, clip positions). -/
def transformStage {I O : Type} (vertex_fn : I → Mat4 → O × Vec4)
    (m : Mat4) (vertices : List I) : List O × List Vec4 :=
  (vertices.map fun v => (vertex_fn v m).1,
   vertices.map fun v => (vertex_fn v m).2)

/-- `Pipeline::process` (rasterizer.rs lines 240–263): run the transform
stage with matrix `proj * view * Matrix4::from_scale(15)`, appending to
the caches; rasterize the cached triangles; then clear both caches.
Returns the updated pipeline and the (backbuffer, depthbuffer) pair. -/
def Pipeline.process {I O : Type} [Blend O] (p : Pipeline I O)
    (width height : ℕ) (vertices : List I) (view proj : Mat4)
    (backbuffer : List RGBA) (depth : List ℕ) :
    Pipeline I O × (List RGBA × List ℕ) :=
  let m := (proj.mul view).mul (Mat4.from_scale 15)
  let ts := transformStage p.vertex_fn m vertices
  let frag_cache := p.frag_cache ++ ts.1
  let vertex_cache := p.vertex_cache ++ ts.2
  let out := rasterize width height vertex_cache frag_cache backbuffer depth p.frag_fn
  ({ p with frag_cache := [], vertex_cache := [] }, out)

/-- `Rasterizer::draw` (rasterizer.rs lines 31–42): run `process` on the
rasterizer's dimensions, matrices and buffers. (The profiler argument is
purely observational and not modelled.) -/
def Rasterizer.draw {I O : Type} [Blend O] (r : Rasterizer)
    (p : Pipeline I O) (vertices : List I) : Rasterizer × Pipeline I O :=
  let res := p.process r.width r.height vertices r.view r.proj r.backbuffer r.depthbuffer
  ({ r with backbuffer := res.2.1, depthbuffer := res.2.2 }, res.1)

/-- Spec-side predicate: all three edge-function values of the pixel
relative to the triangle's three directed edges are ≥ 0 (the inside
test as the spec words it). -/
def all_edges_nonneg (p1 p2 p3 pt : Vec2i) : Prop :=
  0 ≤ edge_function p1 p2 pt ∧ 0 ≤ edge_function p2 p3 pt ∧ 0 ≤ edge_function p3 p1 pt

instance (p1 p2 p3 pt : Vec2i) : Decidable (all_edges_nonneg p1 p2 p3 pt) := by
  unfold all_edges_nonneg; infer_instance

/-- Spec-side depth formula, following the spec's words: interpolate the
three depth components with the Blend operation, clamp the result to
`[0, 1000]`, and scale linearly to the full unsigned 32-bit range
(truncating to an integer). To be compared with `depth_val`, the
formula translated from the source. -/
def claim_depth_value (z1 z2 z3 w1 w2 w3 : ℚ) : ℕ :=
  let blended := (Blend.blend (Depth.mk z1) w1 (Depth.mk z2) w2 (Depth.mk z3) w3).val
  let clamped := max 0 (min blended 1000)
  (ratTrunc (clamped / 1000 * (2 ^ 32 - 1))).toNat

/-- A depth-and-color write at linear index `idx`. -/
def writeAt (idx : ℕ) (col : RGBA) (dv : ℕ) (st : List RGBA × List ℕ) :
    List RGBA × List ℕ :=
  (st.1.set idx col, st.2.set idx dv)

/-- A guarded write: perform `writeAt` exactly when the gate holds and
the new depth is strictly smaller than the stored one; otherwise leave
the state unchanged. `stepPixel` is proved equal to this normal form. -/
def guardedWrite (g : Prop) [Decidable g] (idx : ℕ) (col : RGBA) (dv : ℕ)
    (st : List RGBA × List ℕ) : List RGBA × List ℕ :=
  if g ∧ dv < st.2.getD idx 0 then writeAt idx col dv st else st

/-! ## Theorems -/

/-- C4: for every clip-space position `(x, y, z, w)` the rasterizer maps
it to pixel coordinates `pixel.x = (x / -z + 1) / 2 * width` and
`pixel.y = (1 - y / -z) / 2 * height`, each truncated to an integer
(`i32cast` models Rust's truncating, saturating `as i32`): the
perspective divide divides `x` and `y` by `-z` and the y axis is
flipped. -/
theorem claim_C4_map_coord (x y z w width height near : ℚ) :
    map_coord ⟨x, y, z, w⟩ width height near =
      ⟨i32cast ((x / -z + 1) / 2 * width), i32cast ((1 - y / -z) / 2 * height)⟩ :=
  rfl

/-- C5: after any `clear()`, every color texel of the backbuffer equals
`(0,0,0,0)` and every depth cell equals `u32::max_value()`; `clear` is a
total function (it always succeeds and returns no other value). -/
theorem claim_C5_clear (r : Rasterizer) (i j : ℕ) (d : RGBA) (n : ℕ)
    (hi : i < r.backbuffer.length) (hj : j < r.depthbuffer.length) :
    r.clear.backbuffer.getD i d = ⟨0, 0, 0, 0⟩ ∧
    r.clear.depthbuffer.getD j n = u32max := by
  constructor
  · rw [Rasterizer.clear, List.getD_eq_getElem _ _ (by simpa using hi)]
    simp
  · rw [Rasterizer.clear, List.getD_eq_getElem _ _ (by simpa using hj)]
    simp

/-- C5 witness: the theorem applied to a concrete rasterizer. -/
theorem claim_C5_clear_witness :
    ((Rasterizer.new 2 2).clear.backbuffer.getD 0 ⟨9, 9, 9, 9⟩ = ⟨0, 0, 0, 0⟩ ∧
     (Rasterizer.new 2 2).clear.depthbuffer.getD 0 7 = u32max) :=
  claim_C5_clear (Rasterizer.new 2 2) 0 0 ⟨9, 9, 9, 9⟩ 7 (by decide) (by decide)

/-- C6 counterexample: immediately after `Rasterizer::new(1, 1)` the
single depth cell holds `0`, not the sentinel `u32::max_value()` — the
claim that depth cells hold `UINT32_MAX` before any `clear()` is false.
(`new` fills the depth buffer with `vec![0; width*height]`.) -/
theorem claim_C6_counterexample :
    (Rasterizer.new 1 1).depthbuffer = [0] ∧ (0 : ℕ) ≠ u32max :=
  ⟨rfl, by decide⟩

/-- C6 amended: a freshly constructed rasterizer holds `0` in every
depth cell; the `UINT32_MAX` "nothing drawn yet" sentinel holds only
after `clear()` has run. -/
theorem claim_C6_amended (width height i n m : ℕ)
    (hi : i < (Rasterizer.new width height).depthbuffer.length) :
    (Rasterizer.new width height).depthbuffer.getD i n = 0 ∧
    (Rasterizer.new width height).clear.depthbuffer.getD i m = u32max := by
  constructor
  · rw [List.getD_eq_getElem _ _ hi]
    simp [Rasterizer.new]
  · rw [List.getD_eq_getElem _ _ (by simpa [Rasterizer.clear] using hi)]
    simp [Rasterizer.new, Rasterizer.clear]

/-- C6 amended, witness: the amended theorem at `width = height = 1`,
index 0. -/
theorem claim_C6_amended_witness :
    (Rasterizer.new 1 1).depthbuffer.getD 0 7 = 0 ∧
    (Rasterizer.new 1 1).clear.depthbuffer.getD 0 7 = u32max :=
  claim_C6_amended 1 1 0 7 7 (by decide)

/-- `if a > w then w else a` is `min a w`. -/
theorem ite_gt_eq_min (a w : ℤ) : (if a > w then w else a) = min a w := by
  split <;> omega

/-- `if a < 0 then 0 else a` is `max a 0`. -/
theorem ite_lt_eq_max (a : ℤ) : (if a < 0 then 0 else a) = max a 0 := by
  split <;> omega

/-- `map_coord` output stays in the `i32` range (its components come out
of the saturating cast `i32cast`). -/
theorem map_coord_range (v : Vec4) (w h n : ℚ) :
    -(2 ^ 31) ≤ (map_coord v w h n).x ∧ (map_coord v w h n).x ≤ 2 ^ 31 - 1 ∧
    -(2 ^ 31) ≤ (map_coord v w h n).y ∧ (map_coord v w h n).y ≤ 2 ^ 31 - 1 := by
  unfold map_coord i32cast
  refine ⟨?_, ?_, ?_, ?_⟩ <;> simp

/-- The bounding box computed by the source (min seeded at
`i32::max_value()`, max seeded from the min, clamps in source order)
equals the three-way min/max clamped to `[0, width] × [0, height]`,
provided the coordinates do not exceed `i32::max_value()` and the
dimensions are nonnegative. -/
theorem bbox_eq (p1 p2 p3 : Vec2i) (w h : ℤ)
    (h1x : p1.x ≤ 2 ^ 31 - 1) (h2x : p2.x ≤ 2 ^ 31 - 1) (h3x : p3.x ≤ 2 ^ 31 - 1)
    (h1y : p1.y ≤ 2 ^ 31 - 1) (h2y : p2.y ≤ 2 ^ 31 - 1) (h3y : p3.y ≤ 2 ^ 31 - 1)
    (hw : 0 ≤ w) (hh : 0 ≤ h) :
    bbox p1 p2 p3 w h =
      (⟨max 0 (min (min p1.x (min p2.x p3.x)) w), max 0 (min (min p1.y (min p2.y p3.y)) h)⟩,
       ⟨max 0 (min (max p1.x (max p2.x p3.x)) w), max 0 (min (max p1.y (max p2.y p3.y)) h)⟩) := by
  unfold bbox
  simp only [ite_gt_eq_min, ite_lt_eq_max, Prod.mk.injEq, Vec2i.mk.injEq]
  refine ⟨⟨?_, ?_⟩, ?_, ?_⟩ <;> omega

/-- Membership in an integer range list. -/
theorem mem_intRange {lo hi x : ℤ} : x ∈ intRange lo hi ↔ lo ≤ x ∧ x < hi := by
  unfold intRange
  simp only [List.mem_map, List.mem_range]
  constructor
  · rintro ⟨i, hlt, rfl⟩
    omega
  · rintro ⟨hle, hlt⟩
    exact ⟨(x - lo).toNat, by omega, by omega⟩

/-- Membership in the scanned pixel list: exactly the integer points of
the half-open box `[mn.x, mx.x) × [mn.y, mx.y)`. -/
theorem mem_boxPixels {mn mx : Vec2i} {x y : ℤ} :
    (x, y) ∈ boxPixels mn mx ↔
      (mn.x ≤ x ∧ x < mx.x) ∧ (mn.y ≤ y ∧ y < mx.y) := by
  unfold boxPixels
  simp only [List.mem_flatMap, List.mem_map, Prod.mk.injEq, mem_intRange]
  constructor
  · rintro ⟨x', hx', y', hy', rfl, rfl⟩
    exact ⟨hx', hy'⟩
  · rintro ⟨hx, hy⟩
    exact ⟨x, hx, y, hy, rfl, rfl⟩

/-- Normal form of the per-pixel loop body: a guarded write at index
`x + width*y`, gated on a positive triangle area, the three edge values
being ≥ 0, and the strict depth test. -/
theorem stepPixel_eq {O : Type} [Blend O] (width : ℤ) (p1 p2 p3 : Vec2i) (a b c : Vec4)
    (A B C : O) (frag : Vec2 → O → Vec4) (st : List RGBA × List ℕ) (x y : ℤ) :
    stepPixel width p1 p2 p3 a b c A B C frag st x y =
      guardedWrite (0 < edge_function p1 p2 p3 ∧ all_edges_nonneg p1 p2 p3 ⟨x, y⟩)
        ((x + width * y).toNat)
        (frag_color frag A B C
          ((edge_function p1 p2 ⟨x, y⟩ : ℚ) / (edge_function p1 p2 p3 : ℚ))
          ((edge_function p2 p3 ⟨x, y⟩ : ℚ) / (edge_function p1 p2 p3 : ℚ))
          ((edge_function p3 p1 ⟨x, y⟩ : ℚ) / (edge_function p1 p2 p3 : ℚ)) x y)
        (depth_val a.z b.z c.z
          ((edge_function p1 p2 ⟨x, y⟩ : ℚ) / (edge_function p1 p2 p3 : ℚ))
          ((edge_function p2 p3 ⟨x, y⟩ : ℚ) / (edge_function p1 p2 p3 : ℚ))
          ((edge_function p3 p1 ⟨x, y⟩ : ℚ) / (edge_function p1 p2 p3 : ℚ)))
        st := by
  unfold stepPixel guardedWrite writeAt
  dsimp only
  split_ifs <;>
    first
      | rfl
      | (exfalso; unfold all_edges_nonneg at *; omega)

/-- The depth value the code computes (`min` with 1000, divide by 1000,
scale by `u32::max_value()`, saturating `as u32` cast) equals the
spec-side formula (clamp to `[0, 1000]`, scale linearly to the full
unsigned 32-bit range, truncate): the saturating cast supplies exactly
the missing lower clamp. -/
theorem depth_val_eq_claim (z1 z2 z3 w1 w2 w3 : ℚ) :
    depth_val z1 z2 z3 w1 w2 w3 = claim_depth_value z1 z2 z3 w1 w2 w3 := by
  unfold depth_val claim_depth_value u32cast
  simp only [Blend.blend, instBlendDepth]
  set v : ℚ := z1 * w1 + z2 * w2 + z3 * w3 with hv
  have hM : ((2 : ℚ) ^ 32 - 1) = 4294967295 := by norm_num
  rw [hM]
  rcases le_or_lt 0 v with h0 | h0
  · have hcl : max 0 (min v 1000) = min v 1000 :=
      max_eq_right (le_min h0 (by norm_num))
    rw [hcl]
    have hq0 : 0 ≤ min v 1000 / 1000 * 4294967295 := by
      have : (0:ℚ) ≤ min v 1000 := le_min h0 (by norm_num)
      positivity
    have hqM : min v 1000 / 1000 * 4294967295 ≤ 4294967295 := by
      have h1 : min v 1000 / 1000 ≤ 1 := by
        rw [div_le_one (by norm_num : (0:ℚ) < 1000)]
        exact min_le_right v 1000
      nlinarith
    have ht : ratTrunc (min v 1000 / 1000 * 4294967295) =
        ⌊min v 1000 / 1000 * 4294967295⌋ := by
      unfold ratTrunc
      rw [if_pos hq0]
    rw [ht]
    have hf0 : 0 ≤ ⌊min v 1000 / 1000 * 4294967295⌋ := Int.floor_nonneg.mpr hq0
    have hfM : ⌊min v 1000 / 1000 * 4294967295⌋ ≤ 4294967295 := by
      have := Int.floor_le_floor hqM
      simpa using this
    have h32 : (2:ℤ) ^ 32 - 1 = 4294967295 := by norm_num
    rw [h32, max_eq_left hf0, min_eq_left (by omega)]
  · have hmin : min v 1000 = v := min_eq_left (by linarith)
    rw [hmin]
    have hcl : max 0 v = 0 := max_eq_left (le_of_lt h0)
    rw [hcl]
    have hqneg : v / 1000 * 4294967295 < 0 := by
      have : v / 1000 < 0 := div_neg_of_neg_of_pos h0 (by norm_num)
      nlinarith
    have ht : ratTrunc (v / 1000 * 4294967295) = ⌈v / 1000 * 4294967295⌉ := by
      unfold ratTrunc
      rw [if_neg (by linarith)]
    have hc0 : ⌈v / 1000 * 4294967295⌉ ≤ 0 :=
      Int.ceil_le.mpr (by exact_mod_cast le_of_lt hqneg)
    rw [ht]
    have hz : (0:ℚ) / 1000 * 4294967295 = 0 := by norm_num
    rw [hz]
    have htz : ratTrunc 0 = 0 := by unfold ratTrunc; simp
    rw [htz]
    have hmx : max (⌈v / 1000 * 4294967295⌉) 0 = 0 := max_eq_right hc0
    rw [hmx]
    simp

/-- Folding a function that fixes every state is the identity. -/
theorem foldl_const {σ π : Type} (f : σ → π → σ) (hf : ∀ s p, f s p = s) :
    ∀ (l : List π) (s : σ), l.foldl f s = s
  | [], _ => rfl
  | p :: l, s => by rw [List.foldl_cons, hf, foldl_const f hf l]

/-- C1: at a pixel that passes the inside test (positive area, all edge
values ≥ 0), the depth value written is the Blend interpolation of the
three vertices' z components under the barycentric weights, clamped to
`[0, 1000]` and scaled linearly to the full unsigned 32-bit range
(`claim_depth_value`); the depth-and-color write happens exactly when
this value is strictly smaller than the stored depth. -/
theorem claim_C1_depth_interpolation_and_test {O : Type} [Blend O] (width : ℤ)
    (p1 p2 p3 : Vec2i) (a b c : Vec4) (A B C : O) (frag : Vec2 → O → Vec4)
    (st : List RGBA × List ℕ) (x y : ℤ)
    (harea : 0 < edge_function p1 p2 p3)
    (hin : all_edges_nonneg p1 p2 p3 ⟨x, y⟩) :
    depth_val a.z b.z c.z
        ((edge_function p1 p2 ⟨x, y⟩ : ℚ) / (edge_function p1 p2 p3 : ℚ))
        ((edge_function p2 p3 ⟨x, y⟩ : ℚ) / (edge_function p1 p2 p3 : ℚ))
        ((edge_function p3 p1 ⟨x, y⟩ : ℚ) / (edge_function p1 p2 p3 : ℚ)) =
      claim_depth_value a.z b.z c.z
        ((edge_function p1 p2 ⟨x, y⟩ : ℚ) / (edge_function p1 p2 p3 : ℚ))
        ((edge_function p2 p3 ⟨x, y⟩ : ℚ) / (edge_function p1 p2 p3 : ℚ))
        ((edge_function p3 p1 ⟨x, y⟩ : ℚ) / (edge_function p1 p2 p3 : ℚ)) ∧
    stepPixel width p1 p2 p3 a b c A B C frag st x y =
      (if claim_depth_value a.z b.z c.z
            ((edge_function p1 p2 ⟨x, y⟩ : ℚ) / (edge_function p1 p2 p3 : ℚ))
            ((edge_function p2 p3 ⟨x, y⟩ : ℚ) / (edge_function p1 p2 p3 : ℚ))
            ((edge_function p3 p1 ⟨x, y⟩ : ℚ) / (edge_function p1 p2 p3 : ℚ)) <
          st.2.getD ((x + width * y).toNat) 0
       then writeAt ((x + width * y).toNat)
              (frag_color frag A B C
                ((edge_function p1 p2 ⟨x, y⟩ : ℚ) / (edge_function p1 p2 p3 : ℚ))
                ((edge_function p2 p3 ⟨x, y⟩ : ℚ) / (edge_function p1 p2 p3 : ℚ))
                ((edge_function p3 p1 ⟨x, y⟩ : ℚ) / (edge_function p1 p2 p3 : ℚ)) x y)
              (claim_depth_value a.z b.z c.z
                ((edge_function p1 p2 ⟨x, y⟩ : ℚ) / (edge_function p1 p2 p3 : ℚ))
                ((edge_function p2 p3 ⟨x, y⟩ : ℚ) / (edge_function p1 p2 p3 : ℚ))
                ((edge_function p3 p1 ⟨x, y⟩ : ℚ) / (edge_function p1 p2 p3 : ℚ))) st
       else st) := by
  refine ⟨depth_val_eq_claim _ _ _ _ _ _, ?_⟩
  rw [stepPixel_eq]
  unfold guardedWrite
  rw [depth_val_eq_claim]
  simp only [harea, hin, true_and]

/-- C1 witness: the theorem applied to a concrete triangle, pixel and
buffer state, with both hypotheses discharged by computation. -/
theorem claim_C1_witness :
    depth_val (⟨0, 0, -1, 1⟩ : Vec4).z (⟨0, 0, -1, 1⟩ : Vec4).z (⟨0, 0, -1, 1⟩ : Vec4).z
        ((edge_function ⟨0, 0⟩ ⟨0, 2⟩ ⟨0, 0⟩ : ℚ) / (edge_function ⟨0, 0⟩ ⟨0, 2⟩ ⟨2, 0⟩ : ℚ))
        ((edge_function ⟨0, 2⟩ ⟨2, 0⟩ ⟨0, 0⟩ : ℚ) / (edge_function ⟨0, 0⟩ ⟨0, 2⟩ ⟨2, 0⟩ : ℚ))
        ((edge_function ⟨2, 0⟩ ⟨0, 0⟩ ⟨0, 0⟩ : ℚ) / (edge_function ⟨0, 0⟩ ⟨0, 2⟩ ⟨2, 0⟩ : ℚ)) =
      claim_depth_value (⟨0, 0, -1, 1⟩ : Vec4).z (⟨0, 0, -1, 1⟩ : Vec4).z (⟨0, 0, -1, 1⟩ : Vec4).z
        ((edge_function ⟨0, 0⟩ ⟨0, 2⟩ ⟨0, 0⟩ : ℚ) / (edge_function ⟨0, 0⟩ ⟨0, 2⟩ ⟨2, 0⟩ : ℚ))
        ((edge_function ⟨0, 2⟩ ⟨2, 0⟩ ⟨0, 0⟩ : ℚ) / (edge_function ⟨0, 0⟩ ⟨0, 2⟩ ⟨2, 0⟩ : ℚ))
        ((edge_function ⟨2, 0⟩ ⟨0, 0⟩ ⟨0, 0⟩ : ℚ) / (edge_function ⟨0, 0⟩ ⟨0, 2⟩ ⟨2, 0⟩ : ℚ)) ∧
    stepPixel (O := Depth) 4 ⟨0, 0⟩ ⟨0, 2⟩ ⟨2, 0⟩ ⟨0, 0, -1, 1⟩ ⟨0, 0, -1, 1⟩ ⟨0, 0, -1, 1⟩
        ⟨0⟩ ⟨0⟩ ⟨0⟩ (fun _ o => ⟨o.val, o.val, o.val, 1⟩)
        (List.replicate 16 (RGBA.mk 0 0 0 0), List.replicate 16 u32max) 0 0 =
      (if claim_depth_value (⟨0, 0, -1, 1⟩ : Vec4).z (⟨0, 0, -1, 1⟩ : Vec4).z (⟨0, 0, -1, 1⟩ : Vec4).z
            ((edge_function ⟨0, 0⟩ ⟨0, 2⟩ ⟨0, 0⟩ : ℚ) / (edge_function ⟨0, 0⟩ ⟨0, 2⟩ ⟨2, 0⟩ : ℚ))
            ((edge_function ⟨0, 2⟩ ⟨2, 0⟩ ⟨0, 0⟩ : ℚ) / (edge_function ⟨0, 0⟩ ⟨0, 2⟩ ⟨2, 0⟩ : ℚ))
            ((edge_function ⟨2, 0⟩ ⟨0, 0⟩ ⟨0, 0⟩ : ℚ) / (edge_function ⟨0, 0⟩ ⟨0, 2⟩ ⟨2, 0⟩ : ℚ)) <
          (List.replicate 16 (RGBA.mk 0 0 0 0), List.replicate 16 u32max).2.getD
            (((0 : ℤ) + 4 * 0).toNat) 0
       then writeAt (((0 : ℤ) + 4 * 0).toNat)
              (frag_color (fun _ o => ⟨o.val, o.val, o.val, 1⟩) (⟨0⟩ : Depth) ⟨0⟩ ⟨0⟩
                ((edge_function ⟨0, 0⟩ ⟨0, 2⟩ ⟨0, 0⟩ : ℚ) / (edge_function ⟨0, 0⟩ ⟨0, 2⟩ ⟨2, 0⟩ : ℚ))
                ((edge_function ⟨0, 2⟩ ⟨2, 0⟩ ⟨0, 0⟩ : ℚ) / (edge_function ⟨0, 0⟩ ⟨0, 2⟩ ⟨2, 0⟩ : ℚ))
                ((edge_function ⟨2, 0⟩ ⟨0, 0⟩ ⟨0, 0⟩ : ℚ) / (edge_function ⟨0, 0⟩ ⟨0, 2⟩ ⟨2, 0⟩ : ℚ)) 0 0)
              (claim_depth_value (⟨0, 0, -1, 1⟩ : Vec4).z (⟨0, 0, -1, 1⟩ : Vec4).z (⟨0, 0, -1, 1⟩ : Vec4).z
                ((edge_function ⟨0, 0⟩ ⟨0, 2⟩ ⟨0, 0⟩ : ℚ) / (edge_function ⟨0, 0⟩ ⟨0, 2⟩ ⟨2, 0⟩ : ℚ))
                ((edge_function ⟨0, 2⟩ ⟨2, 0⟩ ⟨0, 0⟩ : ℚ) / (edge_function ⟨0, 0⟩ ⟨0, 2⟩ ⟨2, 0⟩ : ℚ))
                ((edge_function ⟨2, 0⟩ ⟨0, 0⟩ ⟨0, 0⟩ : ℚ) / (edge_function ⟨0, 0⟩ ⟨0, 2⟩ ⟨2, 0⟩ : ℚ)))
              (List.replicate 16 (RGBA.mk 0 0 0 0), List.replicate 16 u32max)
       else (List.replicate 16 (RGBA.mk 0 0 0 0), List.replicate 16 u32max)) :=
  claim_C1_depth_interpolation_and_test _ _ _ _ _ _ _ _ _ _ _ _ _ _
    (by decide) (by decide)

/-- C3: a triangle whose pixel-space signed area (the edge function of
its three mapped vertices) is ≤ 0 is skipped entirely: no color or
depth cell changes, and the (total) function raises no error. -/
theorem claim_C3_area_nonpos_skipped {O : Type} [Blend O] (width height : ℤ)
    (a b c : Vec4) (A B C : O) (frag : Vec2 → O → Vec4) (st : List RGBA × List ℕ)
    (harea : edge_function (map_coord a (width : ℚ) (height : ℚ) (1 / 10))
        (map_coord b (width : ℚ) (height : ℚ) (1 / 10))
        (map_coord c (width : ℚ) (height : ℚ) (1 / 10)) ≤ 0) :
    rasterizeTriangle width height a b c A B C frag st = st := by
  unfold rasterizeTriangle
  dsimp only
  apply foldl_const
  intro s p
  unfold stepPixel
  dsimp only
  rw [if_pos harea]

/-- C3 witness: a degenerate triangle whose three mapped vertices
`(0,0), (1,1), (2,2)` are collinear (signed area exactly 0) produces no
writes on a concrete cleared buffer. -/
theorem claim_C3_witness :
    rasterizeTriangle (O := Depth) 4 4 ⟨-1, 1, -1, 1⟩ ⟨-1/2, 1/2, -1, 1⟩ ⟨0, 0, -1, 1⟩
        ⟨0⟩ ⟨0⟩ ⟨0⟩ (fun _ o => ⟨o.val, o.val, o.val, 1⟩)
        (List.replicate 16 ⟨0, 0, 0, 0⟩, List.replicate 16 u32max) =
      (List.replicate 16 ⟨0, 0, 0, 0⟩, List.replicate 16 u32max) :=
  claim_C3_area_nonpos_skipped _ _ _ _ _ _ _ _ _ _
    (by norm_num [map_coord, i32cast, ratTrunc, edge_function])

/-- C8: for each of the three `Blend` implementations provided by the
code (`Depth`, `Color`, `Uv`), `blend(A, 1, B, 0, C, 0)` equals `A`
exactly (exact rational arithmetic models the spec's claim). -/
theorem claim_C8_blend_identity (d1 d2 d3 : Depth) (c1 c2 c3 : Color) (u1 u2 u3 : Uv) :
    Blend.blend d1 1 d2 0 d3 0 = d1 ∧
    Blend.blend c1 1 c2 0 c3 0 = c1 ∧
    Blend.blend u1 1 u2 0 u3 0 = u1 := by
  refine ⟨?_, ?_, ?_⟩
  · obtain ⟨v⟩ := d1
    show Depth.mk (v * 1 + d2.val * 0 + d3.val * 0) = Depth.mk v
    norm_num
  · obtain ⟨⟨vx, vy, vz⟩⟩ := c1
    show Color.mk ⟨vx * 1 + c2.val.x * 0 + c3.val.x * 0,
                   vy * 1 + c2.val.y * 0 + c3.val.y * 0,
                   vz * 1 + c2.val.z * 0 + c3.val.z * 0⟩ = Color.mk ⟨vx, vy, vz⟩
    norm_num
  · obtain ⟨⟨vx, vy⟩⟩ := u1
    show Uv.mk ⟨vx * 1 + u2.val.x * 0 + u3.val.x * 0,
                vy * 1 + u2.val.y * 0 + u3.val.y * 0⟩ = Uv.mk ⟨vx, vy⟩
    norm_num

/-- C2: (1) the pixels scanned for a triangle are exactly the integer
points of the half-open box whose corners are the componentwise min/max
of the three mapped pixel coordinates clamped to `[0, width] × [0,
height]`; (2) for a triangle with positive area, a scanned pixel
proceeds to the depth test and write (is "inside") precisely when all
three edge-function values are ≥ 0. -/
theorem claim_C2_bbox_and_inside_test {O : Type} [Blend O] (width height : ℕ) (a b c : Vec4)
    (p1 p2 p3 : Vec2i) (A B C : O) (frag : Vec2 → O → Vec4)
    (st : List RGBA × List ℕ) (x y : ℤ)
    (hp1 : p1 = map_coord a ((width : ℤ) : ℚ) ((height : ℤ) : ℚ) (1 / 10))
    (hp2 : p2 = map_coord b ((width : ℤ) : ℚ) ((height : ℤ) : ℚ) (1 / 10))
    (hp3 : p3 = map_coord c ((width : ℤ) : ℚ) ((height : ℤ) : ℚ) (1 / 10)) :
    ((x, y) ∈ boxPixels (bbox p1 p2 p3 (width : ℤ) (height : ℤ)).1
        (bbox p1 p2 p3 (width : ℤ) (height : ℤ)).2 ↔
      (max 0 (min (min p1.x (min p2.x p3.x)) (width : ℤ)) ≤ x ∧
       x < max 0 (min (max p1.x (max p2.x p3.x)) (width : ℤ)) ∧
       max 0 (min (min p1.y (min p2.y p3.y)) (height : ℤ)) ≤ y ∧
       y < max 0 (min (max p1.y (max p2.y p3.y)) (height : ℤ)))) ∧
    (0 < edge_function p1 p2 p3 →
      stepPixel (width : ℤ) p1 p2 p3 a b c A B C frag st x y =
        if all_edges_nonneg p1 p2 p3 ⟨x, y⟩ ∧
           depth_val a.z b.z c.z
             ((edge_function p1 p2 ⟨x, y⟩ : ℚ) / (edge_function p1 p2 p3 : ℚ))
             ((edge_function p2 p3 ⟨x, y⟩ : ℚ) / (edge_function p1 p2 p3 : ℚ))
             ((edge_function p3 p1 ⟨x, y⟩ : ℚ) / (edge_function p1 p2 p3 : ℚ)) <
             st.2.getD ((x + (width : ℤ) * y).toNat) 0
        then writeAt ((x + (width : ℤ) * y).toNat)
               (frag_color frag A B C
                 ((edge_function p1 p2 ⟨x, y⟩ : ℚ) / (edge_function p1 p2 p3 : ℚ))
                 ((edge_function p2 p3 ⟨x, y⟩ : ℚ) / (edge_function p1 p2 p3 : ℚ))
                 ((edge_function p3 p1 ⟨x, y⟩ : ℚ) / (edge_function p1 p2 p3 : ℚ)) x y)
               (depth_val a.z b.z c.z
                 ((edge_function p1 p2 ⟨x, y⟩ : ℚ) / (edge_function p1 p2 p3 : ℚ))
                 ((edge_function p2 p3 ⟨x, y⟩ : ℚ) / (edge_function p1 p2 p3 : ℚ))
                 ((edge_function p3 p1 ⟨x, y⟩ : ℚ) / (edge_function p1 p2 p3 : ℚ))) st
        else st) := by
  have hr1 := map_coord_range a ((width : ℤ) : ℚ) ((height : ℤ) : ℚ) (1 / 10)
  have hr2 := map_coord_range b ((width : ℤ) : ℚ) ((height : ℤ) : ℚ) (1 / 10)
  have hr3 := map_coord_range c ((width : ℤ) : ℚ) ((height : ℤ) : ℚ) (1 / 10)
  rw [← hp1] at hr1
  rw [← hp2] at hr2
  rw [← hp3] at hr3
  constructor
  · rw [bbox_eq p1 p2 p3 (width : ℤ) (height : ℤ) hr1.2.1 hr2.2.1 hr3.2.1
        hr1.2.2.2 hr2.2.2.2 hr3.2.2.2 (Int.natCast_nonneg width) (Int.natCast_nonneg height)]
    rw [mem_boxPixels]
    constructor
    · rintro ⟨⟨hx1, hx2⟩, hy1, hy2⟩
      exact ⟨hx1, hx2, hy1, hy2⟩
    · rintro ⟨hx1, hx2, hy1, hy2⟩
      exact ⟨⟨hx1, hx2⟩, hy1, hy2⟩
  · intro harea
    rw [stepPixel_eq]
    unfold guardedWrite
    simp only [harea, true_and]

/-- C10: every pixel `(x, y)` scanned by the rasterizer for a triangle
satisfies `0 ≤ x < width` and `0 ≤ y < height` (guaranteed by the
bounding-box clamp), so the linear index `x + width*y` is below
`width*height`, the length of both buffers: the panicking out-of-bounds
branch of Rust's indexing is unreachable. -/
theorem claim_C10_index_in_bounds (width height : ℕ) (a b c : Vec4) (p1 p2 p3 : Vec2i) (x y : ℤ)
    (hp1 : p1 = map_coord a ((width : ℤ) : ℚ) ((height : ℤ) : ℚ) (1 / 10))
    (hp2 : p2 = map_coord b ((width : ℤ) : ℚ) ((height : ℤ) : ℚ) (1 / 10))
    (hp3 : p3 = map_coord c ((width : ℤ) : ℚ) ((height : ℤ) : ℚ) (1 / 10))
    (hmem : (x, y) ∈ boxPixels (bbox p1 p2 p3 (width : ℤ) (height : ℤ)).1
        (bbox p1 p2 p3 (width : ℤ) (height : ℤ)).2) :
    0 ≤ x ∧ x < (width : ℤ) ∧ 0 ≤ y ∧ y < (height : ℤ) ∧
    (x + (width : ℤ) * y).toNat < width * height := by
  have hr1 := map_coord_range a ((width : ℤ) : ℚ) ((height : ℤ) : ℚ) (1 / 10)
  have hr2 := map_coord_range b ((width : ℤ) : ℚ) ((height : ℤ) : ℚ) (1 / 10)
  have hr3 := map_coord_range c ((width : ℤ) : ℚ) ((height : ℤ) : ℚ) (1 / 10)
  rw [← hp1] at hr1
  rw [← hp2] at hr2
  rw [← hp3] at hr3
  rw [bbox_eq p1 p2 p3 (width : ℤ) (height : ℤ) hr1.2.1 hr2.2.1 hr3.2.1
      hr1.2.2.2 hr2.2.2.2 hr3.2.2.2 (Int.natCast_nonneg width) (Int.natCast_nonneg height),
    mem_boxPixels] at hmem
  dsimp only at hmem
  obtain ⟨⟨hx1, hx2⟩, hy1, hy2⟩ := hmem
  have hx0 : 0 ≤ x := by omega
  have hxw : x < (width : ℤ) := by omega
  have hy0 : 0 ≤ y := by omega
  have hyh : y < (height : ℤ) := by omega
  refine ⟨hx0, hxw, hy0, hyh, ?_⟩
  have hmul : (width : ℤ) * y ≤ (width : ℤ) * ((height : ℤ) - 1) :=
    mul_le_mul_of_nonneg_left (by omega) (Int.natCast_nonneg width)
  have hlt : x + (width : ℤ) * y < (width : ℤ) * (height : ℤ) := by
    have : (width : ℤ) * ((height : ℤ) - 1) = (width : ℤ) * (height : ℤ) - (width : ℤ) := by
      ring
    omega
  have hcast : ((width * height : ℕ) : ℤ) = (width : ℤ) * (height : ℤ) := by
    push_cast
    ring
  rw [← hcast] at hlt
  have hge : (0:ℤ) ≤ x + (width : ℤ) * y :=
    add_nonneg hx0 (mul_nonneg (Int.natCast_nonneg width) hy0)
  omega



/-- The pixel mapping of the concrete witness triangle, vertex 1. -/
theorem map_eq_p1 : (⟨0, 0⟩ : Vec2i) =
    map_coord ⟨-1, 1, -1, 1⟩ (((4 : ℕ) : ℤ) : ℚ) (((4 : ℕ) : ℤ) : ℚ) (1 / 10) := by
  norm_num [map_coord, i32cast, ratTrunc]

/-- The pixel mapping of the concrete witness triangle, vertex 2. -/
theorem map_eq_p2 : (⟨0, 2⟩ : Vec2i) =
    map_coord ⟨-1, 0, -1, 1⟩ (((4 : ℕ) : ℤ) : ℚ) (((4 : ℕ) : ℤ) : ℚ) (1 / 10) := by
  norm_num [map_coord, i32cast, ratTrunc]

/-- The pixel mapping of the concrete witness triangle, vertex 3. -/
theorem map_eq_p3 : (⟨2, 0⟩ : Vec2i) =
    map_coord ⟨0, 1, -1, 1⟩ (((4 : ℕ) : ℤ) : ℚ) (((4 : ℕ) : ℤ) : ℚ) (1 / 10) := by
  norm_num [map_coord, i32cast, ratTrunc]

/-- C10 witness: the theorem applied to the concrete triangle mapped to
`(0,0), (0,2), (2,0)` on a 4×4 buffer at pixel `(0,0)`. -/
theorem claim_C10_witness :
    0 ≤ (0 : ℤ) ∧ (0 : ℤ) < ((4 : ℕ) : ℤ) ∧ 0 ≤ (0 : ℤ) ∧ (0 : ℤ) < ((4 : ℕ) : ℤ) ∧
    ((0 : ℤ) + ((4 : ℕ) : ℤ) * 0).toNat < 4 * 4 :=
  claim_C10_index_in_bounds _ _ _ _ _ _ _ _ _ _ map_eq_p1 map_eq_p2 map_eq_p3 (by decide)



/-- C2 witness: the theorem applied to the concrete triangle mapped to
`(0,0), (0,2), (2,0)` on a 4×4 buffer at pixel `(0,0)`, with the
positive-area hypothesis discharged by computation. -/
theorem claim_C2_witness :
    (((0 : ℤ), (0 : ℤ)) ∈ boxPixels
        (bbox ⟨0, 0⟩ ⟨0, 2⟩ ⟨2, 0⟩ ((4 : ℕ) : ℤ) ((4 : ℕ) : ℤ)).1
        (bbox ⟨0, 0⟩ ⟨0, 2⟩ ⟨2, 0⟩ ((4 : ℕ) : ℤ) ((4 : ℕ) : ℤ)).2 ↔
      (max 0 (min (min (⟨0, 0⟩ : Vec2i).x (min (⟨0, 2⟩ : Vec2i).x (⟨2, 0⟩ : Vec2i).x)) ((4 : ℕ) : ℤ)) ≤ 0 ∧
       (0 : ℤ) < max 0 (min (max (⟨0, 0⟩ : Vec2i).x (max (⟨0, 2⟩ : Vec2i).x (⟨2, 0⟩ : Vec2i).x)) ((4 : ℕ) : ℤ)) ∧
       max 0 (min (min (⟨0, 0⟩ : Vec2i).y (min (⟨0, 2⟩ : Vec2i).y (⟨2, 0⟩ : Vec2i).y)) ((4 : ℕ) : ℤ)) ≤ 0 ∧
       (0 : ℤ) < max 0 (min (max (⟨0, 0⟩ : Vec2i).y (max (⟨0, 2⟩ : Vec2i).y (⟨2, 0⟩ : Vec2i).y)) ((4 : ℕ) : ℤ)))) ∧
    stepPixel (O := Depth) ((4 : ℕ) : ℤ) ⟨0, 0⟩ ⟨0, 2⟩ ⟨2, 0⟩
        ⟨-1, 1, -1, 1⟩ ⟨-1, 0, -1, 1⟩ ⟨0, 1, -1, 1⟩ ⟨0⟩ ⟨0⟩ ⟨0⟩
        (fun _ o => ⟨o.val, o.val, o.val, 1⟩)
        (List.replicate 16 ⟨0, 0, 0, 0⟩, List.replicate 16 u32max) 0 0 =
      (if all_edges_nonneg ⟨0, 0⟩ ⟨0, 2⟩ ⟨2, 0⟩ ⟨0, 0⟩ ∧
          depth_val (⟨-1, 1, -1, 1⟩ : Vec4).z (⟨-1, 0, -1, 1⟩ : Vec4).z (⟨0, 1, -1, 1⟩ : Vec4).z
            ((edge_function ⟨0, 0⟩ ⟨0, 2⟩ ⟨0, 0⟩ : ℚ) / (edge_function ⟨0, 0⟩ ⟨0, 2⟩ ⟨2, 0⟩ : ℚ))
            ((edge_function ⟨0, 2⟩ ⟨2, 0⟩ ⟨0, 0⟩ : ℚ) / (edge_function ⟨0, 0⟩ ⟨0, 2⟩ ⟨2, 0⟩ : ℚ))
            ((edge_function ⟨2, 0⟩ ⟨0, 0⟩ ⟨0, 0⟩ : ℚ) / (edge_function ⟨0, 0⟩ ⟨0, 2⟩ ⟨2, 0⟩ : ℚ)) <
            (List.replicate 16 (RGBA.mk 0 0 0 0), List.replicate 16 u32max).2.getD
              (((0 : ℤ) + ((4 : ℕ) : ℤ) * 0).toNat) 0
       then writeAt (((0 : ℤ) + ((4 : ℕ) : ℤ) * 0).toNat)
              (frag_color (fun _ o => ⟨o.val, o.val, o.val, 1⟩) (⟨0⟩ : Depth) ⟨0⟩ ⟨0⟩
                ((edge_function ⟨0, 0⟩ ⟨0, 2⟩ ⟨0, 0⟩ : ℚ) / (edge_function ⟨0, 0⟩ ⟨0, 2⟩ ⟨2, 0⟩ : ℚ))
                ((edge_function ⟨0, 2⟩ ⟨2, 0⟩ ⟨0, 0⟩ : ℚ) / (edge_function ⟨0, 0⟩ ⟨0, 2⟩ ⟨2, 0⟩ : ℚ))
                ((edge_function ⟨2, 0⟩ ⟨0, 0⟩ ⟨0, 0⟩ : ℚ) / (edge_function ⟨0, 0⟩ ⟨0, 2⟩ ⟨2, 0⟩ : ℚ)) 0 0)
              (depth_val (⟨-1, 1, -1, 1⟩ : Vec4).z (⟨-1, 0, -1, 1⟩ : Vec4).z (⟨0, 1, -1, 1⟩ : Vec4).z
                ((edge_function ⟨0, 0⟩ ⟨0, 2⟩ ⟨0, 0⟩ : ℚ) / (edge_function ⟨0, 0⟩ ⟨0, 2⟩ ⟨2, 0⟩ : ℚ))
                ((edge_function ⟨0, 2⟩ ⟨2, 0⟩ ⟨0, 0⟩ : ℚ) / (edge_function ⟨0, 0⟩ ⟨0, 2⟩ ⟨2, 0⟩ : ℚ))
                ((edge_function ⟨2, 0⟩ ⟨0, 0⟩ ⟨0, 0⟩ : ℚ) / (edge_function ⟨0, 0⟩ ⟨0, 2⟩ ⟨2, 0⟩ : ℚ)))
              (List.replicate 16 (RGBA.mk 0 0 0 0), List.replicate 16 u32max)
       else (List.replicate 16 (RGBA.mk 0 0 0 0), List.replicate 16 u32max)) :=
  by
  have h := claim_C2_bbox_and_inside_test (O := Depth) _ _ _ _ _ _ _ _ ⟨0⟩ ⟨0⟩ ⟨0⟩
    (fun _ o => ⟨o.val, o.val, o.val, 1⟩)
    (List.replicate 16 ⟨0, 0, 0, 0⟩, List.replicate 16 u32max) 0 0
    map_eq_p1 map_eq_p2 map_eq_p3
  exact ⟨h.1, h.2 (by decide)⟩

/-- Reading the depth buffer at an index other than the one just set. -/
theorem getD_set_ne (l : List ℕ) (i j v : ℕ) (h : i ≠ j) :
    (l.set i v).getD j 0 = l.getD j 0 := by
  rw [List.getD_eq_getElem?_getD, List.getD_eq_getElem?_getD, List.getElem?_set_ne h]

/-- Reading the depth buffer at the index just set (in bounds). -/
theorem getD_set_self (l : List ℕ) (i v : ℕ) (h : i < l.length) :
    (l.set i v).getD i 0 = v := by
  rw [List.getD_eq_getElem?_getD, List.getElem?_set_self (by simpa using h)]
  simp

/-- Guarded writes at distinct indices commute: each one reads and
writes only its own index. -/
theorem guardedWrite_comm (g1 g2 : Prop) [Decidable g1] [Decidable g2]
    (i1 i2 : ℕ) (c1 c2 : RGBA) (d1 d2 : ℕ) (st : List RGBA × List ℕ)
    (hne : i1 ≠ i2) :
    guardedWrite g1 i1 c1 d1 (guardedWrite g2 i2 c2 d2 st) =
      guardedWrite g2 i2 c2 d2 (guardedWrite g1 i1 c1 d1 st) := by
  by_cases h1 : g1 ∧ d1 < st.2.getD i1 0 <;>
    by_cases h2 : g2 ∧ d2 < st.2.getD i2 0
  · -- both writes fire; they commute since the indices differ
    have e1 : guardedWrite g1 i1 c1 d1 st = writeAt i1 c1 d1 st := if_pos h1
    have e2 : guardedWrite g2 i2 c2 d2 st = writeAt i2 c2 d2 st := if_pos h2
    have f1 : guardedWrite g1 i1 c1 d1 (writeAt i2 c2 d2 st) =
        writeAt i1 c1 d1 (writeAt i2 c2 d2 st) := by
      apply if_pos
      refine ⟨h1.1, ?_⟩
      show d1 < (st.2.set i2 d2).getD i1 0
      rw [getD_set_ne st.2 i2 i1 d2 (Ne.symm hne)]
      exact h1.2
    have f2 : guardedWrite g2 i2 c2 d2 (writeAt i1 c1 d1 st) =
        writeAt i2 c2 d2 (writeAt i1 c1 d1 st) := by
      apply if_pos
      refine ⟨h2.1, ?_⟩
      show d2 < (st.2.set i1 d1).getD i2 0
      rw [getD_set_ne st.2 i1 i2 d1 hne]
      exact h2.2
    rw [e2, f1, e1, f2]
    unfold writeAt
    dsimp only
    rw [List.set_comm c2 c1 st.1 (Ne.symm hne), List.set_comm d2 d1 st.2 (Ne.symm hne)]
  · -- only the first write fires
    have e2 : guardedWrite g2 i2 c2 d2 st = st := if_neg h2
    have e1 : guardedWrite g1 i1 c1 d1 st = writeAt i1 c1 d1 st := if_pos h1
    have f2 : guardedWrite g2 i2 c2 d2 (writeAt i1 c1 d1 st) = writeAt i1 c1 d1 st := by
      apply if_neg
      intro hcon
      apply h2
      refine ⟨hcon.1, ?_⟩
      have := hcon.2
      rw [show (writeAt i1 c1 d1 st).2 = st.2.set i1 d1 from rfl,
        getD_set_ne st.2 i1 i2 d1 hne] at this
      exact this
    rw [e2, e1, f2]
  · -- only the second write fires
    have e1 : guardedWrite g1 i1 c1 d1 st = st := if_neg h1
    have e2 : guardedWrite g2 i2 c2 d2 st = writeAt i2 c2 d2 st := if_pos h2
    have f1 : guardedWrite g1 i1 c1 d1 (writeAt i2 c2 d2 st) = writeAt i2 c2 d2 st := by
      apply if_neg
      intro hcon
      apply h1
      refine ⟨hcon.1, ?_⟩
      have := hcon.2
      rw [show (writeAt i2 c2 d2 st).2 = st.2.set i2 d2 from rfl,
        getD_set_ne st.2 i2 i1 d2 (Ne.symm hne)] at this
      exact this
    rw [e1, e2, f1]
  · -- neither write fires
    have e1 : guardedWrite g1 i1 c1 d1 st = st := if_neg h1
    have e2 : guardedWrite g2 i2 c2 d2 st = st := if_neg h2
    rw [e2, e1, e2]

/-- A guarded write is idempotent: after it fires, the stored depth
equals the new depth, so the strict test fails on a second pass. -/
theorem guardedWrite_idem (g : Prop) [Decidable g] (i : ℕ) (c : RGBA) (d : ℕ)
    (st : List RGBA × List ℕ) :
    guardedWrite g i c d (guardedWrite g i c d st) = guardedWrite g i c d st := by
  by_cases h : g ∧ d < st.2.getD i 0
  · have hi : i < st.2.length := by
      by_contra hle
      have : st.2.getD i 0 = 0 := List.getD_eq_default st.2 0 (by omega)
      omega
    have e : guardedWrite g i c d st = writeAt i c d st := if_pos h
    rw [e]
    apply if_neg
    intro hcon
    have := hcon.2
    rw [show (writeAt i c d st).2 = st.2.set i d from rfl, getD_set_self st.2 i d hi] at this
    omega
  · have e : guardedWrite g i c d st = st := if_neg h
    rw [e, e]



/-- A guarded write at an index disjoint from a whole scan commutes
with the scan. -/
theorem foldl_gw_comm {P : Type} (g : P → Prop) [DecidablePred g] (idx : P → ℕ)
    (col : P → RGBA) (dv : P → ℕ) (p : P) :
    ∀ (l : List P) (st : List RGBA × List ℕ),
      (∀ q ∈ l, idx q ≠ idx p) →
      l.foldl (fun s q => guardedWrite (g q) (idx q) (col q) (dv q) s)
        (guardedWrite (g p) (idx p) (col p) (dv p) st) =
      guardedWrite (g p) (idx p) (col p) (dv p)
        (l.foldl (fun s q => guardedWrite (g q) (idx q) (col q) (dv q) s) st)
  | [], st, _ => rfl
  | q :: l, st, h => by
    rw [List.foldl_cons, List.foldl_cons,
      guardedWrite_comm (g q) (g p) (idx q) (idx p) (col q) (col p) (dv q) (dv p) st
        (h q (List.mem_cons_self q l)),
      foldl_gw_comm g idx col dv p l _ (fun r hr => h r (List.mem_cons_of_mem q hr))]

/-- A scan of guarded writes at pairwise-distinct indices is
idempotent. -/
theorem foldl_gw_idem {P : Type} (g : P → Prop) [DecidablePred g] (idx : P → ℕ)
    (col : P → RGBA) (dv : P → ℕ) :
    ∀ (l : List P) (st : List RGBA × List ℕ),
      (l.map idx).Nodup →
      l.foldl (fun s q => guardedWrite (g q) (idx q) (col q) (dv q) s)
        (l.foldl (fun s q => guardedWrite (g q) (idx q) (col q) (dv q) s) st) =
      l.foldl (fun s q => guardedWrite (g q) (idx q) (col q) (dv q) s) st
  | [], _, _ => rfl
  | p :: l, st, h => by
    have hsplit : (∀ x ∈ l, ¬ idx x = idx p) ∧ (l.map idx).Nodup := by simpa using h
    have hnd : (l.map idx).Nodup := hsplit.2
    have hp : ∀ q ∈ l, idx q ≠ idx p := fun q hq => hsplit.1 q hq
    rw [List.foldl_cons, List.foldl_cons,
      ← foldl_gw_comm g idx col dv p l
        (guardedWrite (g p) (idx p) (col p) (dv p) st) hp,
      guardedWrite_idem]
    exact foldl_gw_idem g idx col dv l
      (guardedWrite (g p) (idx p) (col p) (dv p) st) hnd



/-- The integer range list has no duplicates. -/
theorem intRange_nodup (lo hi : ℤ) : (intRange lo hi).Nodup := by
  unfold intRange
  refine List.Nodup.map ?_ (List.nodup_range _)
  intro i j hij
  have hij' : lo + (i : ℤ) = lo + (j : ℤ) := hij
  omega

/-- The scanned pixel list has no duplicates. -/
theorem boxPixels_nodup (mn mx : Vec2i) : (boxPixels mn mx).Nodup := by
  unfold boxPixels
  rw [List.nodup_flatMap]
  constructor
  · intro x _
    refine List.Nodup.map ?_ (intRange_nodup _ _)
    intro i j hij
    have hij' : ((x, i) : ℤ × ℤ) = (x, j) := hij
    exact ((Prod.mk.injEq _ _ _ _).mp hij').2
  · refine List.Pairwise.imp ?_ (intRange_nodup mn.x mx.x)
    intro x y hxy
    intro p hp hq
    simp only [Function.onFun, List.mem_map] at hp hq
    obtain ⟨i, _, rfl⟩ := hp
    obtain ⟨j, _, hj⟩ := hq
    exact hxy (((Prod.mk.injEq _ _ _ _).mp hj).1.symm)

/-- The clamped bounding box lies in `[0, width] × [0, height]`. -/
theorem bbox_bounds (p1 p2 p3 : Vec2i) (w h : ℤ) (hw : 0 ≤ w) (hh : 0 ≤ h) :
    0 ≤ (bbox p1 p2 p3 w h).1.x ∧ (bbox p1 p2 p3 w h).2.x ≤ w ∧
    0 ≤ (bbox p1 p2 p3 w h).1.y ∧ (bbox p1 p2 p3 w h).2.y ≤ h := by
  unfold bbox
  simp only [ite_gt_eq_min, ite_lt_eq_max]
  refine ⟨?_, ?_, ?_, ?_⟩ <;> omega



/-- Distinct pixels of the clamped box map to distinct linear indices
`x + width*y`. -/
theorem boxPixels_idx_nodup (mn mx : Vec2i) (w : ℤ) (hmn : 0 ≤ mn.x) (hmx : mx.x ≤ w)
    (hmny : 0 ≤ mn.y) :
    ((boxPixels mn mx).map (fun p : ℤ × ℤ => (p.1 + w * p.2).toNat)).Nodup := by
  refine List.Nodup.map_on ?_ (boxPixels_nodup mn mx)
  intro p hp q hq heq
  obtain ⟨x1, y1⟩ := p
  obtain ⟨x2, y2⟩ := q
  rw [mem_boxPixels] at hp hq
  have hx1 : 0 ≤ x1 ∧ x1 < w := ⟨le_trans hmn hp.1.1, lt_of_lt_of_le hp.1.2 hmx⟩
  have hx2 : 0 ≤ x2 ∧ x2 < w := ⟨le_trans hmn hq.1.1, lt_of_lt_of_le hq.1.2 hmx⟩
  have hy1 : 0 ≤ y1 := le_trans hmny hp.2.1
  have hy2 : 0 ≤ y2 := le_trans hmny hq.2.1
  have hw0 : 0 ≤ w := le_trans hx1.1 (le_of_lt hx1.2)
  have hnn1 : 0 ≤ x1 + w * y1 := add_nonneg hx1.1 (mul_nonneg hw0 hy1)
  have hnn2 : 0 ≤ x2 + w * y2 := add_nonneg hx2.1 (mul_nonneg hw0 hy2)
  have heq' : x1 + w * y1 = x2 + w * y2 := by
    have := congrArg (fun n : ℕ => (n : ℤ)) heq
    simpa [Int.toNat_of_nonneg hnn1, Int.toNat_of_nonneg hnn2] using this
  have hyeq : y1 = y2 := by
    rcases lt_trichotomy y1 y2 with hlt | heq2 | hgt
    · exfalso
      have h1 : w * (y2 - y1) = x1 - x2 := by linarith
      have h2 : w * 1 ≤ w * (y2 - y1) := mul_le_mul_of_nonneg_left (by omega) hw0
      omega
    · exact heq2
    · exfalso
      have h1 : w * (y1 - y2) = x2 - x1 := by linarith
      have h2 : w * 1 ≤ w * (y1 - y2) := mul_le_mul_of_nonneg_left (by omega) hw0
      omega
  subst hyeq
  have : x1 = x2 := by omega
  subst this
  rfl



/-- Rasterizing the same triangle twice is the same as rasterizing it
once: at every pixel the second pass fails the strict depth test. -/
theorem rasterizeTriangle_idem {O : Type} [Blend O] (width height : ℤ)
    (a b c : Vec4) (A B C : O) (frag : Vec2 → O → Vec4) (st : List RGBA × List ℕ)
    (hw : 0 ≤ width) (hh : 0 ≤ height) :
    rasterizeTriangle width height a b c A B C frag
        (rasterizeTriangle width height a b c A B C frag st) =
      rasterizeTriangle width height a b c A B C frag st := by
  unfold rasterizeTriangle
  dsimp only
  set P1 := map_coord a (width : ℚ) (height : ℚ) (1 / 10) with hP1
  set P2 := map_coord b (width : ℚ) (height : ℚ) (1 / 10) with hP2
  set P3 := map_coord c (width : ℚ) (height : ℚ) (1 / 10) with hP3
  have hext : ∀ s : List RGBA × List ℕ,
      (boxPixels (bbox P1 P2 P3 width height).1 (bbox P1 P2 P3 width height).2).foldl
        (fun st p => stepPixel width P1 P2 P3 a b c A B C frag st p.1 p.2) s =
      (boxPixels (bbox P1 P2 P3 width height).1 (bbox P1 P2 P3 width height).2).foldl
        (fun s q =>
          guardedWrite
            ((fun p : ℤ × ℤ =>
                0 < edge_function P1 P2 P3 ∧ all_edges_nonneg P1 P2 P3 ⟨p.1, p.2⟩) q)
            ((fun p : ℤ × ℤ => (p.1 + width * p.2).toNat) q)
            ((fun p : ℤ × ℤ => frag_color frag A B C
              ((edge_function P1 P2 ⟨p.1, p.2⟩ : ℚ) / (edge_function P1 P2 P3 : ℚ))
              ((edge_function P2 P3 ⟨p.1, p.2⟩ : ℚ) / (edge_function P1 P2 P3 : ℚ))
              ((edge_function P3 P1 ⟨p.1, p.2⟩ : ℚ) / (edge_function P1 P2 P3 : ℚ))
              p.1 p.2) q)
            ((fun p : ℤ × ℤ => depth_val a.z b.z c.z
              ((edge_function P1 P2 ⟨p.1, p.2⟩ : ℚ) / (edge_function P1 P2 P3 : ℚ))
              ((edge_function P2 P3 ⟨p.1, p.2⟩ : ℚ) / (edge_function P1 P2 P3 : ℚ))
              ((edge_function P3 P1 ⟨p.1, p.2⟩ : ℚ) / (edge_function P1 P2 P3 : ℚ))) q)
            s) s := by
    intro s
    refine List.foldl_ext _ _ s ?_
    intro s' p _
    exact stepPixel_eq width P1 P2 P3 a b c A B C frag s' p.1 p.2
  rw [hext, hext]
  have hbb := bbox_bounds P1 P2 P3 width height hw hh
  exact foldl_gw_idem _ _ _ _ _ _
    (boxPixels_idx_nodup (bbox P1 P2 P3 width height).1 (bbox P1 P2 P3 width height).2
      width hbb.1 hbb.2.1 hbb.2.2.1)



/-- C7: rendering the same triangle twice (same vertices, matrices and
shaders) into a previously cleared buffer leaves the color and depth
buffers identical to rendering it once — the second pass fails the
strictly-smaller depth test at every pixel. Stated end-to-end over
`Rasterizer.draw` with a fresh pipeline. -/
theorem claim_C7_double_render_idempotent {I O : Type} [Blend O] (width height : ℕ)
    (vf : I → Mat4 → O × Vec4) (ff : Vec2 → O → Vec4)
    (v1 v2 v3 : I) (view proj : Mat4) :
    (((((Rasterizer.new width height).set_view view).set_proj proj).clear.draw
        (Pipeline.new vf ff) [v1, v2, v3]).1.draw
      (((((Rasterizer.new width height).set_view view).set_proj proj).clear.draw
        (Pipeline.new vf ff) [v1, v2, v3]).2) [v1, v2, v3]).1.backbuffer =
      (((((Rasterizer.new width height).set_view view).set_proj proj).clear.draw
        (Pipeline.new vf ff) [v1, v2, v3]).1).backbuffer ∧
    (((((Rasterizer.new width height).set_view view).set_proj proj).clear.draw
        (Pipeline.new vf ff) [v1, v2, v3]).1.draw
      (((((Rasterizer.new width height).set_view view).set_proj proj).clear.draw
        (Pipeline.new vf ff) [v1, v2, v3]).2) [v1, v2, v3]).1.depthbuffer =
      (((((Rasterizer.new width height).set_view view).set_proj proj).clear.draw
        (Pipeline.new vf ff) [v1, v2, v3]).1).depthbuffer := by
  dsimp only [Rasterizer.draw, Pipeline.process, transformStage, Pipeline.new,
    Rasterizer.new, Rasterizer.set_view, Rasterizer.set_proj, Rasterizer.clear]
  simp only [List.map_cons, List.map_nil, List.nil_append]
  unfold rasterize
  simp only [tripleZip]
  simp only [List.foldl_cons, List.foldl_nil]
  have hidem := rasterizeTriangle_idem (O := O) (width : ℤ) (height : ℤ)
    (vf v1 ((proj.mul view).mul (Mat4.from_scale 15))).2
    (vf v2 ((proj.mul view).mul (Mat4.from_scale 15))).2
    (vf v3 ((proj.mul view).mul (Mat4.from_scale 15))).2
    (vf v1 ((proj.mul view).mul (Mat4.from_scale 15))).1
    (vf v2 ((proj.mul view).mul (Mat4.from_scale 15))).1
    (vf v3 ((proj.mul view).mul (Mat4.from_scale 15))).1
    ff
    ((List.replicate (width * height) ⟨0, 0, 0, 0⟩ : List RGBA).map fun _ => ⟨0, 0, 0, 0⟩,
     (List.replicate (width * height) 0 : List ℕ).map fun _ => u32max)
    (Int.natCast_nonneg width) (Int.natCast_nonneg height)
  exact ⟨congrArg Prod.fst hidem, congrArg Prod.snd hidem⟩



/-- `chunks(3)`-pairing two equally shaped mapped lists only consumes
the longest prefix whose length is a multiple of 3: the trailing one or
two vertices are dropped. -/
theorem tripleZip_map_take {I : Type} {α β : Type} (f : I → α) (g : I → β) :
    ∀ vs : List I,
      tripleZip (vs.map f) (vs.map g) =
      tripleZip ((vs.take (3 * (vs.length / 3))).map f)
        ((vs.take (3 * (vs.length / 3))).map g)
  | [] => by simp [tripleZip]
  | [_] => by simp [tripleZip]
  | [_, _] => by simp [tripleZip]
  | v :: w :: u :: r => by
    have ih := tripleZip_map_take f g r
    simp only [List.map_cons, tripleZip, List.length_cons]
    have h3 : (r.length + 1 + 1 + 1) / 3 = r.length / 3 + 1 := by omega
    rw [h3, show 3 * (r.length / 3 + 1) = 3 * (r.length / 3) + 2 + 1 by ring,
      List.take_succ_cons, show 3 * (r.length / 3) + 2 = 3 * (r.length / 3) + 1 + 1 by ring,
      List.take_succ_cons, List.take_succ_cons]
    simp only [List.map_cons, tripleZip]
    rw [← ih]

/-- C9: for a vertex list whose length is not a multiple of 3, the
(total) `process` completes: the transform stage passes every vertex
(including the trailing ones) through the vertex shader — both cache
length equations; the buffers produced equal those produced from the
list truncated to the last full triple, so the trailing group causes no
rasterization or pixel writes; and both per-frame caches are empty when
`process` returns. -/
theorem claim_C9_non_multiple_of_three {I O : Type} [Blend O]
    (width height : ℕ) (vf : I → Mat4 → O × Vec4) (ff : Vec2 → O → Vec4)
    (vertices : List I) (view proj : Mat4)
    (backbuffer : List RGBA) (depth : List ℕ)
    (h : vertices.length % 3 ≠ 0) :
    (transformStage vf ((proj.mul view).mul (Mat4.from_scale 15)) vertices).1.length =
      vertices.length ∧
    (transformStage vf ((proj.mul view).mul (Mat4.from_scale 15)) vertices).2.length =
      vertices.length ∧
    (Pipeline.new vf ff).process width height vertices view proj backbuffer depth =
      (Pipeline.new vf ff).process width height
        (vertices.take (3 * (vertices.length / 3))) view proj backbuffer depth ∧
    ((Pipeline.new vf ff).process width height vertices view proj backbuffer depth).1.frag_cache =
      ([] : List O) ∧
    ((Pipeline.new vf ff).process width height vertices view proj backbuffer depth).1.vertex_cache =
      ([] : List Vec4) := by
  refine ⟨by simp [transformStage], by simp [transformStage], ?_, rfl, rfl⟩
  unfold Pipeline.process transformStage Pipeline.new rasterize
  dsimp only
  simp only [List.nil_append, List.length_take, List.length_map]
  rw [tripleZip_map_take (fun v => (vf v ((proj.mul view).mul (Mat4.from_scale 15))).2)
    (fun v => (vf v ((proj.mul view).mul (Mat4.from_scale 15))).1) vertices]



/-- C9 witness: the theorem applied to a concrete 4-vertex list (4 % 3 ≠ 0). -/
theorem claim_C9_witness :
    (transformStage (fun (_ : ℕ) (_ : Mat4) => ((⟨0⟩ : Depth), (⟨0, 0, -1, 1⟩ : Vec4)))
        ((Mat4.identity.mul Mat4.identity).mul (Mat4.from_scale 15)) [0, 1, 2, 3]).1.length =
      ([0, 1, 2, 3] : List ℕ).length ∧
    (transformStage (fun (_ : ℕ) (_ : Mat4) => ((⟨0⟩ : Depth), (⟨0, 0, -1, 1⟩ : Vec4)))
        ((Mat4.identity.mul Mat4.identity).mul (Mat4.from_scale 15)) [0, 1, 2, 3]).2.length =
      ([0, 1, 2, 3] : List ℕ).length ∧
    (Pipeline.new (fun (_ : ℕ) (_ : Mat4) => ((⟨0⟩ : Depth), (⟨0, 0, -1, 1⟩ : Vec4)))
        (fun _ o => ⟨o.val, o.val, o.val, 1⟩)).process 2 2 [0, 1, 2, 3]
        Mat4.identity Mat4.identity (List.replicate 4 ⟨0, 0, 0, 0⟩)
        (List.replicate 4 u32max) =
      (Pipeline.new (fun (_ : ℕ) (_ : Mat4) => ((⟨0⟩ : Depth), (⟨0, 0, -1, 1⟩ : Vec4)))
        (fun _ o => ⟨o.val, o.val, o.val, 1⟩)).process 2 2
        (([0, 1, 2, 3] : List ℕ).take (3 * (([0, 1, 2, 3] : List ℕ).length / 3)))
        Mat4.identity Mat4.identity (List.replicate 4 ⟨0, 0, 0, 0⟩)
        (List.replicate 4 u32max) ∧
    ((Pipeline.new (fun (_ : ℕ) (_ : Mat4) => ((⟨0⟩ : Depth), (⟨0, 0, -1, 1⟩ : Vec4)))
        (fun _ o => ⟨o.val, o.val, o.val, 1⟩)).process 2 2 [0, 1, 2, 3]
        Mat4.identity Mat4.identity (List.replicate 4 ⟨0, 0, 0, 0⟩)
        (List.replicate 4 u32max)).1.frag_cache = ([] : List Depth) ∧
    ((Pipeline.new (fun (_ : ℕ) (_ : Mat4) => ((⟨0⟩ : Depth), (⟨0, 0, -1, 1⟩ : Vec4)))
        (fun _ o => ⟨o.val, o.val, o.val, 1⟩)).process 2 2 [0, 1, 2, 3]
        Mat4.identity Mat4.identity (List.replicate 4 ⟨0, 0, 0, 0⟩)
        (List.replicate 4 u32max)).1.vertex_cache = ([] : List Vec4) :=
  claim_C9_non_multiple_of_three _ _ _ _ _ _ _ _ _ (by decide)

end SwRast
